import Mathlib

/-!
# Verification of the voxel-engine launcher's version manager

A shallow embedding of the acquisition state machine of the launcher
(`src/version_manager/version.rs`, `src/version_manager/mod.rs`,
`src/version_manager/utils.rs`, `src/main.rs`), together with proofs of the
spec's testable properties.

External effects (network, subprocesses, the zip extractor, path
canonicalization) are modelled by an oracle record `Ext`; the filesystem, the
shared progress cell, the toast/log sink and the launched processes are
modelled by an explicit `World` state threaded through the translated control
flow.  Conditional compilation (`cfg!(windows)`, `cfg!(unix)`,
`cfg!(target_os = "linux")`) is modelled by a `Platform` record of the three
flags.
-/

namespace VoxelLauncher

/-- The `VersionData` enum of `version.rs` (the Acquisition Descriptor).
`PathBuf` fields are modelled as strings. -/
inductive VersionData : Type where
  | GitLatest : VersionData
  | Binary (url : String) (unzip : Bool) : VersionData
  | Source (zipball_url : String) : VersionData
  | Local (binary : String) (origin : VersionData) : VersionData
  | NotFound : VersionData
deriving DecidableEq, Repr

/-- `true` exactly on the `Local` variant. -/
def VersionData.isLocal : VersionData → Bool
  | .Local _ _ => true
  | _ => false

/-- Nesting depth of `Local` wrappers (0 for every other variant). -/
def VersionData.ronDepth : VersionData → Nat
  | .Local _ origin => origin.ronDepth + 1
  | _ => 0

/-- The spec's nesting invariant: a `Local` descriptor's origin is never
itself `Local`. -/
def notNestedB : VersionData → Bool
  | .Local _ origin => !origin.isLocal
  | _ => true

/-! ## RON serialization (`ron::to_string`) and parsing (`ron::from_str`)

`Version::finish` writes the descriptor with `ron::to_string`, which emits the
compact form `Variant(field:value,...)` with no whitespace; string bodies
escape the backslash and the double quote.  The parser below reads exactly
this canonical surface (the sidecar files are only ever produced by this
writer); it also accepts the standard RON character escapes.  The literal
token runs are named constants shared by the writer and the parser. -/

/-- The token `GitLatest`. -/
def litGitLatest : List Char := "GitLatest".toList

/-- The token `NotFound`. -/
def litNotFound : List Char := "NotFound".toList

/-- The opening tokens `Binary(url:` of the `Binary` variant. -/
def litBinaryOpen : List Char := "Binary(url:".toList

/-- The tokens `,unzip:` between the fields of the `Binary` variant. -/
def litUnzipField : List Char := ",unzip:".toList

/-- The opening tokens `Source(zipball_url:` of the `Source` variant. -/
def litSourceOpen : List Char := "Source(zipball_url:".toList

/-- The opening tokens `Local(binary:` of the `Local` variant. -/
def litLocalOpen : List Char := "Local(binary:".toList

/-- The tokens `,origin:` between the fields of the `Local` variant. -/
def litOriginField : List Char := ",origin:".toList

/-- The token `true`. -/
def litTrue : List Char := "true".toList

/-- The token `false`. -/
def litFalse : List Char := "false".toList

/-- RON string-body escaping: backslash and double quote. -/
def ronEscape : List Char → List Char
  | [] => []
  | c :: rest =>
    if c = '\\' then '\\' :: '\\' :: ronEscape rest
    else if c = '"' then '\\' :: '"' :: ronEscape rest
    else c :: ronEscape rest

/-- A RON string literal: quote, escaped body, quote. -/
def ronStrLit (s : String) : List Char :=
  '"' :: (ronEscape s.toList ++ ['"'])

/-- The writer used by `Version::finish`: `ron::to_string` on `VersionData`. -/
def VersionData.toRonChars : VersionData → List Char
  | .GitLatest => litGitLatest
  | .Binary url uz =>
      litBinaryOpen ++ (ronStrLit url ++ (litUnzipField ++
        ((if uz then litTrue else litFalse) ++ [')'])))
  | .Source zu => litSourceOpen ++ (ronStrLit zu ++ [')'])
  | .Local b origin =>
      litLocalOpen ++ (ronStrLit b ++ (litOriginField ++
        (origin.toRonChars ++ [')'])))
  | .NotFound => litNotFound

/-- `ron::to_string` as a `String`. -/
def VersionData.toRonString (d : VersionData) : String :=
  ⟨d.toRonChars⟩

/-- Expect a literal run of characters, returning the remainder. -/
def expectChars : List Char → List Char → Option (List Char)
  | [], input => some input
  | _ :: _, [] => none
  | c :: cs, i :: is => if i = c then expectChars cs is else none

/-- Resolve one RON escape character after a backslash. -/
def ronUnescape1 (c : Char) : Option Char :=
  if c = '\\' then some '\\'
  else if c = '"' then some '"'
  else if c = 'n' then some '\n'
  else if c = 't' then some '\t'
  else if c = 'r' then some '\r'
  else none

mutual

/-- Parse a RON string body up to and including the closing quote. -/
def parseStrBody : List Char → Option (List Char × List Char)
  | [] => none
  | c :: rest =>
    if c = '"' then some ([], rest)
    else if c = '\\' then parseEscTail rest
    else
      match parseStrBody rest with
      | none => none
      | some (s, r) => some (c :: s, r)

/-- Parse the remainder of a RON string body after a backslash. -/
def parseEscTail : List Char → Option (List Char × List Char)
  | [] => none
  | e :: rest =>
    match ronUnescape1 e with
    | none => none
    | some u =>
      match parseStrBody rest with
      | none => none
      | some (s, r) => some (u :: s, r)

end

/-- Parse a RON string literal (opening quote included). -/
def parseStrLit (input : List Char) : Option (String × List Char) :=
  match input with
  | [] => none
  | c :: rest =>
    if c = '"' then
      match parseStrBody rest with
      | none => none
      | some (s, r) => some (⟨s⟩, r)
    else none

/-- Parse a RON boolean. -/
def parseRonBool (input : List Char) : Option (Bool × List Char) :=
  match expectChars litTrue input with
  | some rest => some (true, rest)
  | none =>
    match expectChars litFalse input with
    | some rest => some (false, rest)
    | none => none

/-- Fuelled parser for `VersionData` in the canonical RON surface; the fuel
bounds the `Local` nesting depth. -/
def parseVD : Nat → List Char → Option (VersionData × List Char)
  | 0, _ => none
  | fuel + 1, input =>
    match expectChars litGitLatest input with
    | some rest => some (.GitLatest, rest)
    | none =>
    match expectChars litNotFound input with
    | some rest => some (.NotFound, rest)
    | none =>
    match expectChars litBinaryOpen input with
    | some rest =>
      (match parseStrLit rest with
       | none => none
       | some (url, r1) =>
         match expectChars litUnzipField r1 with
         | none => none
         | some r2 =>
           match parseRonBool r2 with
           | none => none
           | some (uz, r3) =>
             match expectChars [')'] r3 with
             | none => none
             | some r4 => some (.Binary url uz, r4))
    | none =>
    match expectChars litSourceOpen input with
    | some rest =>
      (match parseStrLit rest with
       | none => none
       | some (zu, r1) =>
         match expectChars [')'] r1 with
         | none => none
         | some r2 => some (.Source zu, r2))
    | none =>
    match expectChars litLocalOpen input with
    | some rest =>
      (match parseStrLit rest with
       | none => none
       | some (b, r1) =>
         match expectChars litOriginField r1 with
         | none => none
         | some r2 =>
           match parseVD fuel r2 with
           | none => none
           | some (origin, r3) =>
             match expectChars [')'] r3 with
             | none => none
             | some r4 => some (.Local b origin, r4))
    | none => none

/-- The parser used when reading sidecar files: `ron::from_str::<VersionData>`.
Rejects trailing input, as `ron::from_str` does. -/
def fromRon (s : String) : Option VersionData :=
  match parseVD (s.length + 1) s.toList with
  | some (d, []) => some d
  | _ => none

/-! ## Platform, configuration, filesystem and world state -/

/-- The conditional-compilation flags used by the source:
`cfg!(windows)`, `cfg!(unix)` and `cfg!(target_os = "linux")`. -/
structure Platform : Type where
  windows : Bool
  unix : Bool
  linux : Bool
deriving DecidableEq, Repr

/-- The user-configuration toggles of `LauncherConfig` in `main.rs` that the
version manager reads (theme and last-played name are presentation-only). -/
structure LauncherConfig : Type where
  build_unsupported : Bool
  use_prebuilt_when_possible : Bool
  download_lua : Bool
deriving DecidableEq, Repr

/-- The channel a message is sent through on the `Interface`
(`info` / `warning` / `error`). -/
inductive Severity : Type where
  | info : Severity
  | warning : Severity
  | error : Severity
deriving DecidableEq, Repr

/-- A spawned game process: the (canonicalized) executable path and the
working directory passed to `Command::current_dir`. -/
structure Launch : Type where
  bin : String
  cwd : String
deriving DecidableEq, Repr

/-- Filesystem model: directories that exist, file contents, and permission
modes.  Writes shadow older entries (lookup returns the newest). -/
structure FS : Type where
  dirs : List String
  files : List (String × String)
  modes : List (String × Nat)
deriving DecidableEq, Repr

/-- `std::fs::write` / `File::create` + copy: record the newest content. -/
def FS.writeFile (fs : FS) (p content : String) : FS :=
  { fs with files := (p, content) :: fs.files }

/-- `std::fs::read_to_string`: newest content of `p`, if any. -/
def FS.fileRead (fs : FS) (p : String) : Option String :=
  (fs.files.find? (fun e => e.1 = p)).map (fun e => e.2)

/-- `std::fs::set_permissions` with `Permissions::from_mode`. -/
def FS.setMode (fs : FS) (p : String) (m : Nat) : FS :=
  { fs with modes := (p, m) :: fs.modes }

/-- Newest permission mode recorded for `p`, if any. -/
def FS.modeOf (fs : FS) (p : String) : Option Nat :=
  (fs.modes.find? (fun e => e.1 = p)).map (fun e => e.2)

/-- `std::fs::create_dir_all` / `create_dir` (parent directories are not
tracked separately). -/
def FS.createDir (fs : FS) (p : String) : FS :=
  { fs with dirs := p :: fs.dirs }

/-- `Path::exists`: a directory or a file at `p`. -/
def FS.pathExists (fs : FS) (p : String) : Bool :=
  fs.dirs.contains p || (fs.fileRead p).isSome

/-- String prefix test on the underlying character lists. -/
def strHasPre (pre s : String) : Bool :=
  List.isPrefixOf pre.toList s.toList

/-- `std::fs::remove_dir_all`: drop every entry at or below `p`. -/
def FS.removeDirAll (fs : FS) (p : String) : FS :=
  { dirs := fs.dirs.filter (fun d => !(strHasPre p d)),
    files := fs.files.filter (fun e => !(strHasPre p e.1)),
    modes := fs.modes.filter (fun e => !(strHasPre p e.1)) }

/-- The mutable state a `play` invocation touches: the version's shared
descriptor cell, the filesystem, the `Interface`'s progress cell (the
progress value is kept as the integer numerator over 100, avoiding `f32`),
the toast/log messages in emission order, and the processes spawned. -/
structure World : Type where
  data : VersionData
  fs : FS
  progress : Option (Int × String)
  messages : List (Severity × String)
  launched : List Launch
deriving DecidableEq, Repr

/-- `Interface::info` / `warning` / `error` (toast + log line). -/
def emit (w : World) (sev : Severity) (msg : String) : World :=
  { w with messages := w.messages ++ [(sev, msg)] }

/-- `interface.progress().take()`. -/
def progressTake (w : World) : World :=
  { w with progress := none }

/-- `interface.replace_progress(0.0)` (label rendered as `0.0%`). -/
def replaceProgress0 (w : World) : World :=
  { w with progress := some (0, "0.0%") }

/-- Outcomes of the external effects a `play` invocation performs, one oracle
per call site: subprocess successes (`utils::run_command`), the download
(`utils::download`, bytes modelled as an opaque string, its incremental
progress reports abstracted), the zip extraction (`utils::unpack`, the
extracted tree not tracked), `Path::canonicalize` of the binary path, and
`Command::spawn`. -/
structure Ext : Type where
  cloneOk : Bool
  pullOk : Bool
  luaLibExists : Bool
  luaCloneOk : Bool
  luaMakeOk : Bool
  luaInstallOk : Bool
  luaCanon : String
  configureOk : Bool
  compileLines : List String
  compileOk : Bool
  downloadResult : Except String String
  unpackResult : Except String Unit
  canonicalize : String → Except String String
  spawnResult : Except String Unit

/-! ## Paths (`utils.rs`) -/

/-- `Path::join`, on the string model of paths. -/
def pathJoin (a b : String) : String := a ++ "/" ++ b

/-- `utils::get_versions_path()`. -/
def versionsPath : String := "versions"

/-- `utils::get_version_path(name)` (`Version::path`). -/
def versionPath (name : String) : String := pathJoin versionsPath name

/-- `utils::downloaded_name()`. -/
def downloadedName (plat : Platform) : String :=
  if plat.windows then "VoxelEngine.exe" else "VoxelEngine.AppImage"

/-- `utils::binary_name()`. -/
def binaryName (plat : Platform) : String :=
  if plat.windows then "VoxelEngine.exe" else "VoxelEngine"

/-- `Version::downloaded_path`. -/
def downloadedPath (plat : Platform) (name : String) : String :=
  pathJoin (versionPath name) (downloadedName plat)

/-- `utils::get_lua_path()` (`home_dir().join(".luajit")`, the home directory
abbreviated). -/
def luaPath : String := "~/.luajit"

/-! ## The acquisition engine (`Version::play` and its callees)

Each Rust early `return` becomes a branch returning the final `World`.
`utils::run_command` reports a failure itself via `interface.error` before the
caller reacts; the model emits the non-zero-exit form of that message. -/

/-- The message `utils::run_command` emits when the process exits with a
failure status. -/
def cmdFailMsg : String := "Failed to run command!"

/-- The compile-step line scraper inside `Version::build`:
`strip_prefix('[')`, `split_once(']')`, `trim`, `strip_suffix('%')`, `trim`,
`parse::<i32>`.  Modelled faithfully over characters. -/
def splitOnceAux (c : Char) : List Char → Option (List Char × List Char)
  | [] => none
  | x :: xs =>
    if x = c then some ([], xs)
    else
      match splitOnceAux c xs with
      | none => none
      | some (a, b) => some (x :: a, b)

/-- `str::trim` (ASCII whitespace model). -/
def isWs (c : Char) : Bool := c = ' ' || c = '\t' || c = '\n' || c = '\r'

/-- Trim whitespace from both ends. -/
def trimChars (l : List Char) : List Char :=
  ((l.dropWhile isWs).reverse.dropWhile isWs).reverse

/-- `str::strip_suffix(c)`. -/
def stripSuffixChar (c : Char) (l : List Char) : Option (List Char) :=
  match l.reverse with
  | [] => none
  | x :: xs => if x = c then some xs.reverse else none

/-- Decimal value of a non-empty all-digit run. -/
def digitsToNat : List Char → Option Nat
  | [] => none
  | [c] => if c.isDigit then some (c.toNat - 48) else none
  | c :: rest =>
    if c.isDigit then
      match digitsToNat rest with
      | none => none
      | some n => some ((c.toNat - 48) * 10 ^ rest.length + n)
    else none

/-- `i32::from_str` (`parse::<i32>().ok()`): optional sign, digits, 32-bit
range check. -/
def parseI32 (l : List Char) : Option Int :=
  match l with
  | [] => none
  | c :: ds =>
    if c = '+' then
      match digitsToNat ds with
      | none => none
      | some n => if n ≤ 2147483647 then some ((n : Int)) else none
    else if c = '-' then
      match digitsToNat ds with
      | none => none
      | some n => if n ≤ 2147483648 then some (-(n : Int)) else none
    else
      match digitsToNat (c :: ds) with
      | none => none
      | some n => if n ≤ 2147483647 then some ((n : Int)) else none

/-- The whole scraping chain of the compile-step line callback: the progress
numerator (over 100) extracted from a line, if any. -/
def cmakeProgress (line : String) : Option Int :=
  match line.toList with
  | '[' :: rest =>
    (match splitOnceAux ']' rest with
     | none => none
     | some (pct, _) =>
       match stripSuffixChar '%' (trimChars pct) with
       | none => none
       | some p => parseI32 (trimChars p))
  | _ => none

/-- The compile-step line callback: on a scraped percentage, `set_progress`
with the raw line as label; otherwise no update. -/
def applyCompileLine (w : World) (line : String) : World :=
  match cmakeProgress line with
  | some p => { w with progress := some (p, line) }
  | none => w

/-- Replace every occurrence of `pat` (`str::replace`), on character lists. -/
def listReplace (pat repl : List Char) (l : List Char) : List Char :=
  match l with
  | [] => []
  | c :: rest =>
    if pat ≠ [] ∧ List.isPrefixOf pat (c :: rest) then
      repl ++ listReplace pat repl (rest.drop (pat.length - 1))
    else c :: listReplace pat repl rest
termination_by l.length
decreasing_by
  · simp only [List.length_drop, List.length_cons]
    omega
  · simp only [List.length_cons]
    omega

/-- `str::replace` on strings. -/
def strReplaceAll (s pat repl : String) : String :=
  ⟨listReplace pat.toList repl.toList s.toList⟩

/-- The replacement text written over `find_package(Lua REQUIRED)` in
`CMakeLists.txt` (built from the canonicalized lua path). -/
def luaDirective (canon : String) : String :=
  "include_directories(\"" ++ canon ++ "/include/luajit-2.1/\")\nset(LUA_LIBRARIES \""
    ++ canon ++ "/lib/libluajit-5.1.a\")"

/-- The in-place `CMakeLists.txt` rewrite at the end of the `download_lua`
pre-step (`if let Ok(cmake) = read_to_string(...)`). -/
def cmakeRewriteStep (ext : Ext) (name : String) (w : World) : World :=
  match w.fs.fileRead (pathJoin (versionPath name) "CMakeLists.txt") with
  | none => w
  | some cmake =>
    let rewritten := strReplaceAll cmake "find_package(Lua REQUIRED)" (luaDirective ext.luaCanon)
    { w with fs := w.fs.writeFile (pathJoin (versionPath name) "CMakeLists.txt") rewritten }

/-- The `download_lua` pre-step of `Version::build`: obtain and build luajit
when its `lib` directory is missing, then rewrite `CMakeLists.txt` in place if
it contains the Lua discovery directive.  Returns the world and whether the
build may continue. -/
def luaStep (ext : Ext) (name : String) (w : World) : World × Bool :=
  let afterFetch : World × Bool :=
    if ext.luaLibExists = false then
      let w := { w with fs := (w.fs.removeDirAll luaPath).createDir luaPath }
      let w := emit w .info "Downloading lua"
      if ext.luaCloneOk = false then (emit w .error cmdFailMsg, false)
      else
        let w := emit w .info "Building lua"
        if ext.luaMakeOk = false then (emit w .error cmdFailMsg, false)
        else if ext.luaInstallOk = false then (emit w .error cmdFailMsg, false)
        else (w, true)
    else (w, true)
  match afterFetch with
  | (w, false) => (w, false)
  | (w, true) => (cmakeRewriteStep ext name w, true)

/-- `Version::build`: the optional lua pre-step, then wipe/create the `build`
directory and run the configure and compile steps, scraping compile output
lines for progress.  Returns the world and the success flag. -/
def buildStep (cfg : LauncherConfig) (ext : Ext) (name : String)
    (forceRefresh : Bool) (w : World) : World × Bool :=
  let lua : World × Bool :=
    if cfg.download_lua then luaStep ext name w else (w, true)
  match lua with
  | (w, false) => (w, false)
  | (w, true) =>
    let w := emit w .info "Building the game"
    let w :=
      if forceRefresh then
        { w with fs := w.fs.removeDirAll (pathJoin (versionPath name) "build") }
      else w
    let w := { w with fs := w.fs.createDir (pathJoin (versionPath name) "build") }
    if ext.configureOk = false then (emit w .error cmdFailMsg, false)
    else
      let w := ext.compileLines.foldl applyCompileLine w
      if ext.compileOk = false then (emit w .error cmdFailMsg, false)
      else (w, true)

/-- The canonicalize-and-spawn tail of `Version::run_binary`: errors from
either step surface as `Failed to run game executable`. -/
def launchBin (ext : Ext) (name bin : String) (w : World) : World :=
  match ext.canonicalize (pathJoin (versionPath name) bin) with
  | .error e => emit w .error ("Failed to run game executable: " ++ e)
  | .ok binpath =>
    match ext.spawnResult with
    | .error e => emit w .error ("Failed to run game executable: " ++ e)
    | .ok _ => { w with launched := w.launched ++ [⟨binpath, versionPath name⟩] }

/-- `Version::run_binary`. -/
def runBinary (plat : Platform) (ext : Ext) (name : String) (w : World) : World :=
  let w := emit w .info "Running the game"
  match w.data with
  | .Local b _ => launchBin ext name b w
  | .GitLatest => launchBin ext name (pathJoin "build" (binaryName plat)) w
  | _ => emit w .error "Error: Binary not found! Use force-refresh"

/-- `Version::finish`: wrap the current descriptor into `Local`, persist it to
the sidecar file, clear progress, launch. -/
def finish (plat : Platform) (ext : Ext) (name bin : String) (w : World) : World :=
  let newData := VersionData.Local bin w.data
  let w := { w with
    data := newData,
    fs := w.fs.writeFile (pathJoin (versionPath name) "version.ron") newData.toRonString }
  runBinary plat ext name (progressTake w)

/-- The tail of the `GitLatest` arm after clone/pull: build, abort on failure,
else clear progress and run the conventional build output. -/
def afterRepo (cfg : LauncherConfig) (plat : Platform) (ext : Ext) (name : String)
    (forceRefresh : Bool) (w : World) : World :=
  match buildStep cfg ext name forceRefresh w with
  | (w, false) => progressTake w
  | (w, true) => runBinary plat ext name (progressTake w)

/-- The `GitLatest` arm of `Version::play`. -/
def playGit (cfg : LauncherConfig) (plat : Platform) (ext : Ext) (name : String)
    (forceRefresh : Bool) (w : World) : World :=
  if cfg.build_unsupported = false then
    progressTake (emit w .error "This version has to be built from source")
  else
    let w := replaceProgress0 w
    if w.fs.pathExists (pathJoin (versionPath name) "src") = false then
      let w := emit w .info "Cloning the repo"
      if ext.cloneOk = false then progressTake (emit w .error cmdFailMsg)
      else afterRepo cfg plat ext name forceRefresh w
    else
      let w := emit w .info "Pulling changes from github"
      if ext.pullOk = false then
        let w := emit w .error cmdFailMsg
        let w := emit w .info "Failed to clone the repo. Running the latest local commit instead"
        afterRepo cfg plat ext name forceRefresh w
      else afterRepo cfg plat ext name forceRefresh w

/-- The permission step after the `Binary` payload is on disk
(`cfg!(target_os = "linux")` only), then the shared finish. -/
def binTail (plat : Platform) (ext : Ext) (name : String) (w : World) : World :=
  let w :=
    if plat.linux then { w with fs := w.fs.setMode (downloadedPath plat name) 0o755 }
    else w
  finish plat ext name (downloadedName plat) w

/-- The `Binary` arm of `Version::play`. -/
def playBinary (plat : Platform) (ext : Ext) (name : String) (uz : Bool)
    (w : World) : World :=
  let w := replaceProgress0 w
  let w := emit w .info "Downloading version binary"
  match ext.downloadResult with
  | .error e => progressTake (emit w .error ("Failed to download binary: " ++ e))
  | .ok bytes =>
    if uz then
      match ext.unpackResult with
      | .error e => progressTake (emit w .error ("Failed to unpack version sources: " ++ e))
      | .ok _ => binTail plat ext name w
    else
      let w := { w with fs := w.fs.writeFile (downloadedPath plat name) bytes }
      binTail plat ext name w

/-- The `Source` arm of `Version::play`. -/
def playSource (cfg : LauncherConfig) (plat : Platform) (ext : Ext) (name : String)
    (forceRefresh : Bool) (w : World) : World :=
  if cfg.build_unsupported = false then
    progressTake (emit w .error "This version doesn't have prebuilt binaries for your platform")
  else if name = "v11" ∨ name = "v12" then
    emit w .error "Versions 0.11 and 0.12 are not supported by the laucher"
  else
    let w := replaceProgress0 w
    let w := emit w .info "Downloading version source"
    match ext.downloadResult with
    | .error e => progressTake (emit w .error ("Failed to download zipball: " ++ e))
    | .ok _bytes =>
      let w := emit w .info "Unpacking version sources"
      match ext.unpackResult with
      | .error e => progressTake (emit w .error ("Failed to unpack version sources: " ++ e))
      | .ok _ =>
        match buildStep cfg ext name forceRefresh w with
        | (w, false) => progressTake w
        | (w, true) => finish plat ext name (pathJoin "build" (binaryName plat)) w

/-- The force-refresh unwrap at the top of `Version::play`: a `Local`
descriptor is replaced by its origin. -/
def unwrapForce (forceRefresh : Bool) (w : World) : World :=
  if forceRefresh then
    match w.data with
    | .Local _ origin => { w with data := origin }
    | _ => w
  else w

/-- `Version::play`: the force-refresh unwrap, the unconditional
`create_dir_all` of the version directory, then dispatch on a snapshot of the
descriptor. -/
def play (cfg : LauncherConfig) (plat : Platform) (ext : Ext) (name : String)
    (forceRefresh : Bool) (w : World) : World :=
  let w := unwrapForce forceRefresh w
  let w := { w with fs := w.fs.createDir (versionPath name) }
  match w.data with
  | .GitLatest => playGit cfg plat ext name forceRefresh w
  | .Binary _url uz => playBinary plat ext name uz w
  | .Source _zu => playSource cfg plat ext name forceRefresh w
  | .Local _ _ => runBinary plat ext name w
  | .NotFound => emit w .error "Version files not found or it's not supported on your platform"

/-! ## The remote catalog fetcher (`Version::parse`, `VersionManager::update`,
`VersionManager::try_find`) -/

/-- Substring test (`str::contains`), on character lists. -/
def listHasInfix (pat : List Char) : List Char → Bool
  | [] => pat.isEmpty
  | c :: rest => List.isPrefixOf pat (c :: rest) || listHasInfix pat rest

/-- `str::contains` on strings. -/
def strContains (s pat : String) : Bool :=
  listHasInfix pat.toList s.toList

/-- A release asset (`octocrab::models::repos::Asset`): its name and
`browser_download_url`. -/
structure Asset : Type where
  name : String
  browser_download_url : String
deriving DecidableEq, Repr

/-- A release (`octocrab::models::repos::Release`): optional name, assets, and
optional `zipball_url`. -/
structure Release : Type where
  name : Option String
  assets : List Asset
  zipball_url : Option String
deriving DecidableEq, Repr

/-- `utils::find_platform_version`. -/
def findPlatformVersion (plat : Platform) (asset : Asset) : Bool :=
  if plat.windows then strContains asset.name "win64"
  else if plat.unix then strContains asset.name "AppImage"
  else false

/-- Reading and parsing the sidecar descriptor file of a named version
(`read_to_string(version_path(name)/"version.ron")` + `ron::from_str`). -/
def readSidecar (fs : FS) (name : String) : Option VersionData :=
  (fs.fileRead (pathJoin (versionPath name) "version.ron")).bind fromRon

/-- `Version::parse`: `None` when the release has no name; otherwise the
descriptor follows the precedence sidecar, then platform binary gated on
`use_prebuilt_when_possible`, then zipball, then `NotFound`. -/
def versionParse (plat : Platform) (cfg : LauncherConfig) (fs : FS)
    (release : Release) : Option (String × VersionData) :=
  match release.name with
  | none => none
  | some name =>
    let d :=
      match readSidecar fs name with
      | some d => d
      | none =>
        match (release.assets.find? (findPlatformVersion plat)).map
            (fun a => a.browser_download_url) with
        | some url =>
          if cfg.use_prebuilt_when_possible then VersionData.Binary url plat.windows
          else
            match release.zipball_url with
            | some zu => VersionData.Source zu
            | none => VersionData.NotFound
        | none =>
          match release.zipball_url with
          | some zu => VersionData.Source zu
          | none => VersionData.NotFound
    some (name, d)

/-- The warning `update` emits for a subdirectory whose sidecar exists but
does not parse (`format!("Corrupted version {:?}: {}", name, err)`; the RON
error rendering is abstracted to a fixed text). -/
def corruptMsg (name : String) : String :=
  "Corrupted version \"" ++ name ++ "\": parse error"

/-- First line of an error message
(`err.to_string().split('\n').next().unwrap()`). -/
def firstLine (s : String) : String :=
  ⟨s.toList.takeWhile (fun c => c ≠ '\n')⟩

/-- The local-directory fallback scan of `VersionManager::update`: for each
subdirectory name, a version per parseable sidecar, a warning per corrupt
sidecar, directories without a sidecar skipped silently.  Returns the
warnings and the versions, each in emission order. -/
def scanLocal (fs : FS) : List String → List (Severity × String) × List (String × VersionData)
  | [] => ([], [])
  | name :: rest =>
    match fs.fileRead (pathJoin (versionPath name) "version.ron") with
    | none => scanLocal fs rest
    | some content =>
      match fromRon content with
      | some d =>
        let (ws, vs) := scanLocal fs rest
        (ws, (name, d) :: vs)
      | none =>
        let (ws, vs) := scanLocal fs rest
        ((.warning, corruptMsg name) :: ws, vs)

/-- `VersionManager::update`, parameterized by the host query result and the
local directory listing: on success the parsed releases, on failure a warning
with the first line of the error plus the local scan; either way the synthetic
`Latest (Git)` entry is inserted at index 0.  Returns the warnings emitted and
the final catalog. -/
def updateModel (plat : Platform) (cfg : LauncherConfig) (fs : FS)
    (fetch : Except String (List Release)) (dirListing : List String) :
    List (Severity × String) × List (String × VersionData) :=
  let fetched : List (Severity × String) × List (String × VersionData) :=
    match fetch with
    | .ok releases => ([], releases.filterMap (versionParse plat cfg fs))
    | .error err =>
      let (ws, vs) := scanLocal fs dirListing
      ((.warning, "Failed to fetch versions from github: " ++ firstLine err) :: ws, vs)
  (fetched.1, ("Latest (Git)", VersionData.GitLatest) :: fetched.2)

/-- A catalog entry (`Version`): the name and the descriptor cell. -/
structure VersionRec : Type where
  name : String
  data : VersionData
deriving DecidableEq, Repr

/-- The `PartialEq` implementation on `Version`: by name only. -/
def versionEq (a b : VersionRec) : Bool :=
  a.name == b.name

/-- `VersionManager::try_find`. -/
def tryFind (versions : List VersionRec) (name : String) : Option VersionRec :=
  versions.find? (fun v => v.name == name)

/-! ## Concrete fixtures used by witnesses and counterexamples -/

/-- An oracle record where every external effect succeeds. -/
def extAllOk : Ext :=
  { cloneOk := true, pullOk := true, luaLibExists := true, luaCloneOk := true,
    luaMakeOk := true, luaInstallOk := true, luaCanon := "/home/.luajit/lib",
    configureOk := true, compileLines := [], compileOk := true,
    downloadResult := .ok "BYTES", unpackResult := .ok (),
    canonicalize := fun p => .ok ("/abs/" ++ p), spawnResult := .ok () }

/-- The Linux platform (`cfg!(unix)` and `cfg!(target_os = "linux")`). -/
def platLinux : Platform := { windows := false, unix := true, linux := true }

/-- A Unix platform that is not Linux (e.g. macOS): `cfg!(unix)` holds but
`cfg!(target_os = "linux")` does not. -/
def platMacOs : Platform := { windows := false, unix := true, linux := false }

/-- Default launcher configuration (`LauncherConfig::default`), restricted to
the fields the version manager reads. -/
def cfgDefault : LauncherConfig :=
  { build_unsupported := true, use_prebuilt_when_possible := true, download_lua := false }

/-- An empty initial world holding a given descriptor. -/
def w0 (d : VersionData) : World :=
  { data := d, fs := ⟨[], [], []⟩, progress := none, messages := [], launched := [] }

/-- Configuration with `build_unsupported` disallowed. -/
def cfgNoBuild : LauncherConfig :=
  { build_unsupported := false, use_prebuilt_when_possible := true, download_lua := false }

/-- A world for the `GitLatest` version named `g` whose source checkout is
already present on disk. -/
def wGitSrc : World :=
  { data := .GitLatest, fs := ⟨["versions/g/src"], [], []⟩, progress := none,
    messages := [], launched := [] }

/-- A filesystem holding one parseable sidecar (version `a`) and one corrupt
sidecar (version `b`). -/
def fsTwoSidecars : FS :=
  ⟨[], [("versions/a/version.ron", "GitLatest"), ("versions/b/version.ron", "junk")], []⟩

/-! ### Round-trip lemmas -/

theorem parseStrBody_escape :
    ∀ (s rest : List Char), parseStrBody (ronEscape s ++ '"' :: rest) = some (s, rest) := by
  intro s rest
  induction s with
  | nil => simp [ronEscape, parseStrBody]
  | cons c cs ih =>
    by_cases hb : c = '\\'
    · subst hb
      simp [ronEscape, parseStrBody, parseEscTail, ronUnescape1, ih]
    · by_cases hq : c = '"'
      · subst hq
        simp [ronEscape, parseStrBody, parseEscTail, ronUnescape1, ih]
      · simp [ronEscape, parseStrBody, hb, hq, ih]

theorem parseStrLit_lit (s : String) (rest : List Char) :
    parseStrLit (ronStrLit s ++ rest) = some (s, rest) := by
  simp [ronStrLit, parseStrLit, parseStrBody_escape]

theorem parseRonBool_lit (b : Bool) (rest : List Char) :
    parseRonBool ((if b then litTrue else litFalse) ++ rest) = some (b, rest) := by
  cases b <;> rfl

theorem parseVD_roundtrip :
    ∀ (d : VersionData) (fuel : Nat) (rest : List Char), d.ronDepth < fuel →
      parseVD fuel (d.toRonChars ++ rest) = some (d, rest) := by
  intro d
  induction d with
  | GitLatest =>
    intro fuel rest h
    match fuel, h with
    | fuel + 1, _ => rfl
  | NotFound =>
    intro fuel rest h
    match fuel, h with
    | fuel + 1, _ => rfl
  | Binary url uz =>
    intro fuel rest h
    match fuel, h with
    | fuel + 1, _ =>
      have h1 : ∀ l, expectChars litGitLatest (litBinaryOpen ++ l) = none := fun _ => rfl
      have h2 : ∀ l, expectChars litNotFound (litBinaryOpen ++ l) = none := fun _ => rfl
      have h3 : ∀ l, expectChars litBinaryOpen (litBinaryOpen ++ l) = some l := fun _ => rfl
      have h4 : ∀ l, expectChars litUnzipField (litUnzipField ++ l) = some l := fun _ => rfl
      have h5 : ∀ l : List Char, expectChars [')'] (')' :: l) = some l := fun _ => rfl
      simp only [VersionData.toRonChars, parseVD, List.append_assoc, h1, h2, h3,
        parseStrLit_lit, h4, parseRonBool_lit, List.cons_append, List.nil_append, h5]
  | Source zu =>
    intro fuel rest h
    match fuel, h with
    | fuel + 1, _ =>
      have h1 : ∀ l, expectChars litGitLatest (litSourceOpen ++ l) = none := fun _ => rfl
      have h2 : ∀ l, expectChars litNotFound (litSourceOpen ++ l) = none := fun _ => rfl
      have h3 : ∀ l, expectChars litBinaryOpen (litSourceOpen ++ l) = none := fun _ => rfl
      have h4 : ∀ l, expectChars litSourceOpen (litSourceOpen ++ l) = some l := fun _ => rfl
      have h5 : ∀ l : List Char, expectChars [')'] (')' :: l) = some l := fun _ => rfl
      simp only [VersionData.toRonChars, parseVD, List.append_assoc, h1, h2, h3, h4,
        parseStrLit_lit, List.cons_append, List.nil_append, h5]
  | Local b origin ih =>
    intro fuel rest h
    match fuel, h with
    | fuel + 1, h =>
      have h1 : ∀ l, expectChars litGitLatest (litLocalOpen ++ l) = none := fun _ => rfl
      have h2 : ∀ l, expectChars litNotFound (litLocalOpen ++ l) = none := fun _ => rfl
      have h3 : ∀ l, expectChars litBinaryOpen (litLocalOpen ++ l) = none := fun _ => rfl
      have h4 : ∀ l, expectChars litSourceOpen (litLocalOpen ++ l) = none := fun _ => rfl
      have h5 : ∀ l, expectChars litLocalOpen (litLocalOpen ++ l) = some l := fun _ => rfl
      have h6 : ∀ l, expectChars litOriginField (litOriginField ++ l) = some l := fun _ => rfl
      have h7 : ∀ l : List Char, expectChars [')'] (')' :: l) = some l := fun _ => rfl
      have hd : origin.ronDepth < fuel := by
        simp only [VersionData.ronDepth] at h
        omega
      have hrec : parseVD fuel (origin.toRonChars ++ ')' :: rest)
          = some (origin, ')' :: rest) := ih fuel (')' :: rest) hd
      simp only [VersionData.toRonChars, parseVD, List.append_assoc, h1, h2, h3, h4, h5,
        parseStrLit_lit, h6, List.cons_append, List.nil_append, hrec, h7]

theorem ronDepth_le_toRonChars_length (d : VersionData) :
    d.ronDepth ≤ d.toRonChars.length := by
  induction d with
  | Local b origin ih =>
    have hl : litLocalOpen.length = 13 := rfl
    simp only [VersionData.ronDepth, VersionData.toRonChars, List.length_append, hl]
    omega
  | GitLatest => simp [VersionData.ronDepth]
  | NotFound => simp [VersionData.ronDepth]
  | Binary url uz => simp [VersionData.ronDepth]
  | Source zu => simp [VersionData.ronDepth]

/-- **C3.** For every Acquisition Descriptor value (every `VersionData`,
nested `Local` origins included), serializing it with the writer used by
`Version::finish` (`ron::to_string`, modelled by `VersionData.toRonString`)
and parsing the result back with the parser used when reading sidecar files
(`ron::from_str`, modelled by `fromRon`) yields the original value. -/
theorem C3_ron_roundtrip (d : VersionData) : fromRon d.toRonString = some d := by
  have htl : (VersionData.toRonString d).toList = d.toRonChars := rfl
  have hd : d.ronDepth < (VersionData.toRonString d).length + 1 := by
    have h := ronDepth_le_toRonChars_length d
    have hlen : (VersionData.toRonString d).length = d.toRonChars.length := rfl
    omega
  have h := parseVD_roundtrip d ((VersionData.toRonString d).length + 1) [] hd
  simp only [List.append_nil] at h
  simp only [fromRon, htl, h]

/-! ## C10: `Version` equality and lookup are by name -/

/-- **C10.** Two `Version` values are equal exactly when their names are
equal — the Acquisition Descriptor plays no role (two versions with the same
name and different descriptors compare equal) — and `try_find` returns an
entry exactly by matching names. -/
theorem C10_version_eq_by_name :
    (∀ a b : VersionRec, versionEq a b = true ↔ a.name = b.name)
    ∧ (∀ (nm : String) (d1 d2 : VersionData), versionEq ⟨nm, d1⟩ ⟨nm, d2⟩ = true)
    ∧ (∀ (l : List VersionRec) (n : String) (v : VersionRec),
        tryFind l n = some v → v.name = n ∧ v ∈ l)
    ∧ (∀ (l : List VersionRec) (n : String),
        (∃ v ∈ l, v.name = n) → ∃ v, tryFind l n = some v ∧ v.name = n) := by
  refine ⟨?_, ?_, ?_, ?_⟩
  · intro a b
    simp [versionEq]
  · intro nm d1 d2
    simp [versionEq]
  · intro l n v h
    refine ⟨?_, List.mem_of_find?_eq_some h⟩
    have hp := List.find?_some h
    simpa using hp
  · intro l n hex
    obtain ⟨v, hv, hn⟩ := hex
    have hs : (l.find? (fun v => v.name == n)).isSome := by
      rw [List.find?_isSome]
      exact ⟨v, hv, by simp [hn]⟩
    obtain ⟨u, hu⟩ := Option.isSome_iff_exists.1 hs
    refine ⟨u, hu, ?_⟩
    have hp := List.find?_some hu
    simpa using hp

/-- Witness for C10 at concrete inputs: looking up `"a"` in a one-element
catalog returns that entry. -/
theorem C10_version_eq_by_name_witness :
    (⟨"a", VersionData.GitLatest⟩ : VersionRec).name = "a"
    ∧ (⟨"a", VersionData.GitLatest⟩ : VersionRec)
        ∈ [(⟨"a", VersionData.GitLatest⟩ : VersionRec)] :=
  C10_version_eq_by_name.2.2.1 [⟨"a", VersionData.GitLatest⟩] "a"
    ⟨"a", VersionData.GitLatest⟩ (by decide)

/-! ## C8: the compile-step progress scraper -/

theorem isWs_of_isDigit (c : Char) (h : c.isDigit = true) : isWs c = false := by
  by_contra hw
  have hw2 : isWs c = true := by
    cases hx : isWs c
    · exact absurd hx hw
    · rfl
  simp only [isWs, Bool.or_eq_true, decide_eq_true_eq] at hw2
  rcases hw2 with ((h1 | h1) | h1) | h1 <;> subst h1 <;> exact absurd h (by decide)

theorem ne_rbracket_of_isDigit (c : Char) (h : c.isDigit = true) : c ≠ ']' := by
  intro he
  subst he
  exact absurd h (by decide)

theorem splitOnceAux_digits (ds tail : List Char) (hdig : ∀ c ∈ ds, c.isDigit = true) :
    splitOnceAux ']' (ds ++ '%' :: ']' :: tail) = some (ds ++ ['%'], tail) := by
  induction ds with
  | nil => rfl
  | cons c cs ih =>
    have hc : c ≠ ']' := ne_rbracket_of_isDigit c (hdig c (by simp))
    have ih2 := ih (fun x hx => hdig x (by simp [hx]))
    simp [splitOnceAux, hc, ih2]

theorem dropWhile_no_ws (l : List Char) (h : ∀ c ∈ l, isWs c = false) :
    l.dropWhile isWs = l := by
  cases l with
  | nil => rfl
  | cons c cs =>
    have hc : isWs c = false := h c (by simp)
    simp [List.dropWhile, hc]

theorem trimChars_no_ws (l : List Char) (h : ∀ c ∈ l, isWs c = false) :
    trimChars l = l := by
  have h1 : l.dropWhile isWs = l := dropWhile_no_ws l h
  have h2 : l.reverse.dropWhile isWs = l.reverse := by
    refine dropWhile_no_ws l.reverse (fun c hc => h c ?_)
    exact List.mem_reverse.1 hc
  simp [trimChars, h1, h2]

theorem stripSuffixChar_append (ds : List Char) :
    stripSuffixChar '%' (ds ++ ['%']) = some ds := by
  simp [stripSuffixChar]

theorem parseI32_digits (ds : List Char) (n : Nat) (hds : digitsToNat ds = some n)
    (hn : n ≤ 2147483647) (hdig : ∀ c ∈ ds, c.isDigit = true) :
    parseI32 ds = some ((n : Nat) : Int) := by
  cases ds with
  | nil => exact absurd hds (by simp [digitsToNat])
  | cons c cs =>
    have hc : c.isDigit = true := hdig c (by simp)
    have hplus : c ≠ '+' := by
      intro he
      subst he
      exact absurd hc (by decide)
    have hminus : c ≠ '-' := by
      intro he
      subst he
      exact absurd hc (by decide)
    simp [parseI32, hplus, hminus, hds, hn]

/-- **C8 (amended).** The compile-step scraper reports, for every line whose
leading bracketed field is a digit run `NN` (in 32-bit range) followed by `%`,
the progress numerator `NN` (the code divides by 100 for display) with the
literal raw line as the label; a line the scraper does not match produces no
progress update and no error (the callback leaves the world unchanged).  The
amendment relative to the frozen claim: the scraper also accepts signed
percentages (see the counterexample), so non-`[NN%]` lines do not in general
leave the progress untouched — the untouched case is exactly
`cmakeProgress line = none`. -/
theorem C8_progress_scraper (ds : List Char) (n : Nat) (tail : List Char) (w : World)
    (hds : digitsToNat ds = some n) (hn : n ≤ 2147483647)
    (hdig : ∀ c ∈ ds, c.isDigit = true) :
    cmakeProgress ⟨'[' :: (ds ++ '%' :: ']' :: tail)⟩ = some ((n : Nat) : Int)
    ∧ applyCompileLine w ⟨'[' :: (ds ++ '%' :: ']' :: tail)⟩
        = { w with progress := some (((n : Nat) : Int), ⟨'[' :: (ds ++ '%' :: ']' :: tail)⟩) }
    ∧ (∀ line, cmakeProgress line = none → applyCompileLine w line = w) := by
  have hnws : ∀ c ∈ ds ++ ['%'], isWs c = false := by
    intro c hc
    rcases List.mem_append.1 hc with h | h
    · exact isWs_of_isDigit c (hdig c h)
    · simp only [List.mem_singleton] at h
      subst h
      decide
  have hnwsd : ∀ c ∈ ds, isWs c = false := fun c hc => isWs_of_isDigit c (hdig c hc)
  have hmain : cmakeProgress ⟨'[' :: (ds ++ '%' :: ']' :: tail)⟩ = some ((n : Nat) : Int) := by
    have htl : (⟨'[' :: (ds ++ '%' :: ']' :: tail)⟩ : String).toList
        = '[' :: (ds ++ '%' :: ']' :: tail) := rfl
    simp only [cmakeProgress, htl, splitOnceAux_digits ds tail hdig,
      trimChars_no_ws (ds ++ ['%']) hnws, stripSuffixChar_append ds,
      trimChars_no_ws ds hnwsd, parseI32_digits ds n hds hn hdig]
  refine ⟨hmain, ?_, ?_⟩
  · simp [applyCompileLine, hmain]
  · intro line h
    simp [applyCompileLine, h]

/-- **C8 counterexample.** The line `[-5%] x` is not of the `[NN%] ...` shape
(its first bracketed character is not a digit), yet the scraper accepts the
signed percentage and performs a progress update — refuting "every line not
matching that shape produces no progress update". -/
theorem C8_counterexample :
    cmakeProgress "[-5%] x" = some (-5)
    ∧ applyCompileLine (w0 .GitLatest) "[-5%] x"
        = { w0 .GitLatest with progress := some (-5, "[-5%] x") }
    ∧ ('-').isDigit = false := by
  refine ⟨by decide, ?_, by decide⟩
  have h : cmakeProgress "[-5%] x" = some (-5) := by decide
  simp [applyCompileLine, h]

/-- Witness for C8 at the spec's own example line. -/
theorem C8_progress_scraper_witness :
    cmakeProgress ⟨'[' :: (['4', '2'] ++ '%' :: ']' :: " Building CXX object foo.cpp.o".toList)⟩
        = some ((42 : Nat) : Int)
    ∧ applyCompileLine (w0 .GitLatest)
        ⟨'[' :: (['4', '2'] ++ '%' :: ']' :: " Building CXX object foo.cpp.o".toList)⟩
        = { w0 .GitLatest with progress := some (((42 : Nat) : Int),
            ⟨'[' :: (['4', '2'] ++ '%' :: ']' :: " Building CXX object foo.cpp.o".toList)⟩) } :=
  ⟨(C8_progress_scraper ['4', '2'] 42 " Building CXX object foo.cpp.o".toList (w0 .GitLatest)
      (by decide) (by decide) (by decide)).1,
   (C8_progress_scraper ['4', '2'] 42 " Building CXX object foo.cpp.o".toList (w0 .GitLatest)
      (by decide) (by decide) (by decide)).2.1⟩

/-! ## C5: policy checks of the `Source` arm -/

/-- **C5 (amended).** On a `Source` descriptor, `play` requires the
build-unsupported flag: when it is disabled, the *flag* guard fires first with
the error `This version doesn't have prebuilt binaries for your platform` and
aborts with progress cleared, having mutated nothing beyond the unconditional
creation of the (empty) version directory; when the flag is enabled, the
releases named `v11` and `v12` are rejected with the error
`Versions 0.11 and 0.12 are not supported by the laucher` (the code's own
spelling), again with no writes.  The amendment relative to the frozen claim:
with build-unsupported disallowed the emitted error is the prebuilt-binaries
one (the v11/v12 check is unreachable), not "not supported by the launcher",
and `play` always creates the version directory before the guards run. -/
theorem C5_source_policy (cfg : LauncherConfig) (plat : Platform) (ext : Ext)
    (name : String) (fr : Bool) (w : World) (zu : String)
    (hdata : w.data = .Source zu) :
    (cfg.build_unsupported = false →
      play cfg plat ext name fr w
        = progressTake (emit { w with fs := w.fs.createDir (versionPath name) } .error
            "This version doesn't have prebuilt binaries for your platform"))
    ∧ (cfg.build_unsupported = true → name = "v11" ∨ name = "v12" →
      play cfg plat ext name fr w
        = emit { w with fs := w.fs.createDir (versionPath name) } .error
            "Versions 0.11 and 0.12 are not supported by the laucher") := by
  have hu : unwrapForce fr w = w := by
    cases fr <;> simp [unwrapForce, hdata]
  constructor
  · intro hflag
    simp [play, hu, hdata, playSource, hflag]
  · intro hflag hname
    simp [play, hu, hdata, playSource, hflag, hname]

/-- **C5 counterexample.** Playing the release named `v11` with a `Source`
descriptor while build-unsupported is disallowed: the only emitted error is
the prebuilt-binaries message, which does not contain the claimed substring
`not supported by the launcher`, and the version directory has been created
(so the filesystem is not untouched), though nothing was written. -/
theorem C5_counterexample :
    (play cfgNoBuild platLinux extAllOk "v11" false (w0 (.Source "z"))).messages
        = [(.error, "This version doesn't have prebuilt binaries for your platform")]
    ∧ strContains "This version doesn't have prebuilt binaries for your platform"
        "not supported by the launcher" = false
    ∧ (play cfgNoBuild platLinux extAllOk "v11" false (w0 (.Source "z"))).fs.files = []
    ∧ (play cfgNoBuild platLinux extAllOk "v11" false (w0 (.Source "z"))).fs.dirs
        = ["versions/v11"] := by
  refine ⟨?_, by decide, ?_, ?_⟩ <;>
    simp [play, unwrapForce, playSource, cfgNoBuild, w0, emit, progressTake,
      FS.createDir, versionPath, versionsPath, pathJoin]

/-- Witness for C5 at concrete inputs (both guard branches). -/
theorem C5_source_policy_witness :
    play cfgNoBuild platLinux extAllOk "v11" false (w0 (.Source "z"))
      = progressTake (emit { w0 (.Source "z") with
          fs := (w0 (.Source "z")).fs.createDir (versionPath "v11") } .error
          "This version doesn't have prebuilt binaries for your platform")
    ∧ play cfgDefault platLinux extAllOk "v11" false (w0 (.Source "z"))
      = emit { w0 (.Source "z") with
          fs := (w0 (.Source "z")).fs.createDir (versionPath "v11") } .error
          "Versions 0.11 and 0.12 are not supported by the laucher" :=
  ⟨(C5_source_policy cfgNoBuild platLinux extAllOk "v11" false (w0 (.Source "z")) "z" rfl).1 rfl,
   (C5_source_policy cfgDefault platLinux extAllOk "v11" false (w0 (.Source "z")) "z" rfl).2 rfl
     (Or.inl rfl)⟩

/-! ## C7: the shared finish step -/

theorem fileRead_writeFile_self (fs : FS) (p c : String) :
    (fs.writeFile p c).fileRead p = some c := by
  simp [FS.writeFile, FS.fileRead, List.find?]

/-- **C7.** `finish` persists a `Local` descriptor — binary the acquired path,
origin the previous descriptor — to the sidecar file of the version directory
(in the writer's serialization), clears progress, and launches the binary by
its canonicalized path with the working directory set to the version
directory; a canonicalize or spawn failure reports
`Failed to run game executable` but leaves the persisted `Local` descriptor in
place. -/
theorem C7_finish_persists (plat : Platform) (ext : Ext) (name bin : String) (w : World) :
    ((finish plat ext name bin w).data = .Local bin w.data)
    ∧ ((finish plat ext name bin w).fs.fileRead (pathJoin (versionPath name) "version.ron")
        = some (VersionData.Local bin w.data).toRonString)
    ∧ ((finish plat ext name bin w).progress = none)
    ∧ (∀ c, ext.canonicalize (pathJoin (versionPath name) bin) = .ok c →
        ext.spawnResult = .ok () →
        (finish plat ext name bin w).launched = w.launched ++ [⟨c, versionPath name⟩])
    ∧ (∀ e, ext.canonicalize (pathJoin (versionPath name) bin) = .error e →
        (Severity.error, "Failed to run game executable: " ++ e)
          ∈ (finish plat ext name bin w).messages)
    ∧ (∀ c e, ext.canonicalize (pathJoin (versionPath name) bin) = .ok c →
        ext.spawnResult = .error e →
        (Severity.error, "Failed to run game executable: " ++ e)
          ∈ (finish plat ext name bin w).messages) := by
  refine ⟨?_, ?_, ?_, ?_, ?_, ?_⟩
  · cases hc : ext.canonicalize (pathJoin (versionPath name) bin) with
    | error e => simp [finish, runBinary, launchBin, emit, progressTake, hc]
    | ok c =>
      cases hs : ext.spawnResult with
      | error e => simp [finish, runBinary, launchBin, emit, progressTake, hc, hs]
      | ok u => simp [finish, runBinary, launchBin, emit, progressTake, hc, hs]
  · cases hc : ext.canonicalize (pathJoin (versionPath name) bin) with
    | error e =>
      simp [finish, runBinary, launchBin, emit, progressTake, hc, fileRead_writeFile_self]
    | ok c =>
      cases hs : ext.spawnResult with
      | error e =>
        simp [finish, runBinary, launchBin, emit, progressTake, hc, hs,
          fileRead_writeFile_self]
      | ok u =>
        simp [finish, runBinary, launchBin, emit, progressTake, hc, hs,
          fileRead_writeFile_self]
  · cases hc : ext.canonicalize (pathJoin (versionPath name) bin) with
    | error e => simp [finish, runBinary, launchBin, emit, progressTake, hc]
    | ok c =>
      cases hs : ext.spawnResult with
      | error e => simp [finish, runBinary, launchBin, emit, progressTake, hc, hs]
      | ok u => simp [finish, runBinary, launchBin, emit, progressTake, hc, hs]
  · intro c hc hs
    simp [finish, runBinary, launchBin, emit, progressTake, hc, hs]
  · intro e hc
    simp [finish, runBinary, launchBin, emit, progressTake, hc]
  · intro c e hc hs
    simp [finish, runBinary, launchBin, emit, progressTake, hc, hs]

/-- Witness for C7 at concrete inputs: the launch uses the canonicalized path
and the version directory as working directory. -/
theorem C7_finish_persists_witness :
    (finish platLinux extAllOk "x" "bin" (w0 .GitLatest)).launched
      = (w0 .GitLatest).launched ++ [⟨"/abs/versions/x/bin", versionPath "x"⟩] :=
  (C7_finish_persists platLinux extAllOk "x" "bin" (w0 .GitLatest)).2.2.2.1
    "/abs/versions/x/bin" rfl rfl

/-! ## Preservation lemmas for the launch/finish tail -/

theorem launchBin_fs (ext : Ext) (name b : String) (w : World) :
    (launchBin ext name b w).fs = w.fs := by
  unfold launchBin
  cases ext.canonicalize (pathJoin (versionPath name) b) with
  | error e => rfl
  | ok c =>
    cases ext.spawnResult with
    | error e => rfl
    | ok u => rfl

theorem launchBin_data (ext : Ext) (name b : String) (w : World) :
    (launchBin ext name b w).data = w.data := by
  unfold launchBin
  cases ext.canonicalize (pathJoin (versionPath name) b) with
  | error e => rfl
  | ok c =>
    cases ext.spawnResult with
    | error e => rfl
    | ok u => rfl

theorem launchBin_progress (ext : Ext) (name b : String) (w : World) :
    (launchBin ext name b w).progress = w.progress := by
  unfold launchBin
  cases ext.canonicalize (pathJoin (versionPath name) b) with
  | error e => rfl
  | ok c =>
    cases ext.spawnResult with
    | error e => rfl
    | ok u => rfl

theorem runBinary_fs (plat : Platform) (ext : Ext) (name : String) (w : World) :
    (runBinary plat ext name w).fs = w.fs := by
  unfold runBinary
  cases hd : w.data <;> simp [emit, hd, launchBin_fs]

theorem runBinary_data (plat : Platform) (ext : Ext) (name : String) (w : World) :
    (runBinary plat ext name w).data = w.data := by
  unfold runBinary
  cases hd : w.data <;> simp [emit, hd, launchBin_data]

theorem runBinary_progress (plat : Platform) (ext : Ext) (name : String) (w : World) :
    (runBinary plat ext name w).progress = w.progress := by
  unfold runBinary
  cases hd : w.data <;> simp [emit, hd, launchBin_progress]

theorem finish_data (plat : Platform) (ext : Ext) (name bin : String) (w : World) :
    (finish plat ext name bin w).data = .Local bin w.data := by
  simp [finish, progressTake, runBinary_data]

theorem finish_fs (plat : Platform) (ext : Ext) (name bin : String) (w : World) :
    (finish plat ext name bin w).fs
      = w.fs.writeFile (pathJoin (versionPath name) "version.ron")
          (VersionData.Local bin w.data).toRonString := by
  simp [finish, progressTake, runBinary_fs]

theorem finish_progress (plat : Platform) (ext : Ext) (name bin : String) (w : World) :
    (finish plat ext name bin w).progress = none := by
  simp [finish, progressTake, runBinary_progress]

/-! ## C9: permissions after a raw `Binary` download -/

theorem pathJoin_inj (a b c : String) (h : pathJoin a b = pathJoin a c) : b = c := by
  have hd : (pathJoin a b).data = (pathJoin a c).data := congrArg String.data h
  simp only [pathJoin, String.data_append] at hd
  have hbc := List.append_cancel_left hd
  cases b
  cases c
  simp only at hbc
  rw [hbc]

theorem fileRead_writeFile_ne (fs : FS) (p q c : String) (h : q ≠ p) :
    (fs.writeFile p c).fileRead q = fs.fileRead q := by
  have hne : (p = q) = False := by
    refine eq_false ?_
    intro he
    exact h he.symm
  simp [FS.writeFile, FS.fileRead, List.find?, hne]

theorem modeOf_setMode_self (fs : FS) (p : String) (m : Nat) :
    (fs.setMode p m).modeOf p = some m := by
  simp [FS.setMode, FS.modeOf, List.find?]

theorem downloadedName_ne_sidecar (plat : Platform) :
    downloadedName plat ≠ "version.ron" := by
  unfold downloadedName
  cases plat.windows <;> simp

theorem fileRead_setMode (fs : FS) (p q : String) (m : Nat) :
    (fs.setMode p m).fileRead q = fs.fileRead q := rfl

theorem modeOf_writeFile (fs : FS) (p q c : String) :
    (fs.writeFile p c).modeOf q = fs.modeOf q := rfl

/-- **C9 (amended).** For a `Binary` descriptor with `unzip = false` and a
successful download, `play` writes the raw payload to the expected executable
filename in the version directory, and the permission step setting mode `0o755`
runs exactly when `cfg!(target_os = "linux")`: on Linux the written file's
recorded mode is `0o755`; on every non-Linux target — Windows, but also
non-Linux Unix such as macOS — no permission step occurs.  The amendment
relative to the frozen claim: the code gates the `chmod` on Linux
specifically, not on all non-Windows/Unix targets. -/
theorem C9_binary_permissions (cfg : LauncherConfig) (plat : Platform) (ext : Ext)
    (name : String) (fr : Bool) (w : World) (url bytes : String)
    (hdata : w.data = .Binary url false)
    (hdl : ext.downloadResult = .ok bytes) :
    (plat.linux = true →
      (play cfg plat ext name fr w).fs.fileRead (downloadedPath plat name) = some bytes
      ∧ (play cfg plat ext name fr w).fs.modeOf (downloadedPath plat name) = some 0o755)
    ∧ (plat.linux = false →
      (play cfg plat ext name fr w).fs.modes = w.fs.modes) := by
  have hu : unwrapForce fr w = w := by
    cases fr <;> simp [unwrapForce, hdata]
  have hne : downloadedPath plat name ≠ pathJoin (versionPath name) "version.ron" := by
    intro he
    exact downloadedName_ne_sidecar plat (pathJoin_inj (versionPath name) _ _ he)
  constructor
  · intro hlin
    constructor
    · simp [play, hu, hdata, playBinary, replaceProgress0, emit, hdl, binTail, hlin,
        finish_fs, fileRead_writeFile_ne _ _ _ _ hne, fileRead_setMode,
        fileRead_writeFile_self]
    · simp [play, hu, hdata, playBinary, replaceProgress0, emit, hdl, binTail, hlin,
        finish_fs, modeOf_writeFile, modeOf_setMode_self]
  · intro hlin
    simp [play, hu, hdata, playBinary, replaceProgress0, emit, hdl, binTail, hlin,
      finish_fs, FS.writeFile, FS.createDir]

/-- **C9 counterexample.** On a non-Windows Unix platform that is not Linux
(macOS), a successful raw-binary `play` records no permission mode at all —
refuting "on a non-Windows/Unix target ... sets that file's permission bits to
mode 0755". -/
theorem C9_counterexample :
    platMacOs.windows = false
    ∧ platMacOs.unix = true
    ∧ (play cfgDefault platMacOs extAllOk "x" false (w0 (.Binary "u" false))).fs.fileRead
        (downloadedPath platMacOs "x") = some "BYTES"
    ∧ (play cfgDefault platMacOs extAllOk "x" false (w0 (.Binary "u" false))).fs.modes
        = [] := by
  refine ⟨rfl, rfl, ?_, ?_⟩ <;> decide

/-- Witness for C9 at concrete inputs (Linux). -/
theorem C9_binary_permissions_witness :
    ((play cfgDefault platLinux extAllOk "x" false (w0 (.Binary "u" false))).fs.fileRead
        (downloadedPath platLinux "x") = some "BYTES"
      ∧ (play cfgDefault platLinux extAllOk "x" false (w0 (.Binary "u" false))).fs.modeOf
        (downloadedPath platLinux "x") = some 0o755)
    ∧ (play cfgDefault platMacOs extAllOk "x" false (w0 (.Binary "u" false))).fs.modes
        = (w0 (.Binary "u" false)).fs.modes :=
  ⟨(C9_binary_permissions cfgDefault platLinux extAllOk "x" false (w0 (.Binary "u" false))
      "u" "BYTES" rfl rfl).1 rfl,
   (C9_binary_permissions cfgDefault platMacOs extAllOk "x" false (w0 (.Binary "u" false))
      "u" "BYTES" rfl rfl).2 rfl⟩

/-! ## C6: the `GitLatest` arm -/

/-- **C6 (amended).** On a `GitLatest` descriptor: when the build-unsupported
flag is disabled, `play` reports an error and aborts with progress cleared;
otherwise it clones when no source checkout is present (a clone failure aborts
with progress cleared), else pulls, and a pull failure is non-fatal — the
generic command-failure error is followed by an *informational* notice
(`interface.info`, not the warning channel) and execution proceeds into the
build-and-run continuation (`afterRepo`).  The amendment relative to the
frozen claim: the pull-failure notice goes through the info channel, not a
warning (see the counterexample). -/
theorem C6_gitlatest_policy (cfg : LauncherConfig) (plat : Platform) (ext : Ext)
    (name : String) (fr : Bool) (w : World)
    (hdata : w.data = .GitLatest) :
    (cfg.build_unsupported = false →
      play cfg plat ext name fr w
        = progressTake (emit { w with fs := w.fs.createDir (versionPath name) } .error
            "This version has to be built from source"))
    ∧ (cfg.build_unsupported = true →
      (w.fs.createDir (versionPath name)).pathExists (pathJoin (versionPath name) "src")
          = false →
      ext.cloneOk = false →
      play cfg plat ext name fr w
        = progressTake (emit (emit (replaceProgress0
            { w with fs := w.fs.createDir (versionPath name) }) .info "Cloning the repo")
            .error cmdFailMsg))
    ∧ (cfg.build_unsupported = true →
      (w.fs.createDir (versionPath name)).pathExists (pathJoin (versionPath name) "src")
          = false →
      ext.cloneOk = true →
      play cfg plat ext name fr w
        = afterRepo cfg plat ext name fr (emit (replaceProgress0
            { w with fs := w.fs.createDir (versionPath name) }) .info "Cloning the repo"))
    ∧ (cfg.build_unsupported = true →
      (w.fs.createDir (versionPath name)).pathExists (pathJoin (versionPath name) "src")
          = true →
      ext.pullOk = false →
      play cfg plat ext name fr w
        = afterRepo cfg plat ext name fr (emit (emit (emit (replaceProgress0
            { w with fs := w.fs.createDir (versionPath name) }) .info
            "Pulling changes from github") .error cmdFailMsg) .info
            "Failed to clone the repo. Running the latest local commit instead")) := by
  have hu : unwrapForce fr w = w := by
    cases fr <;> simp [unwrapForce, hdata]
  refine ⟨?_, ?_, ?_, ?_⟩
  · intro hflag
    simp [play, hu, hdata, playGit, hflag, replaceProgress0, emit, progressTake]
  · intro hflag hsrc hclone
    simp [play, hu, hdata, playGit, hflag, hsrc, hclone, replaceProgress0, emit, progressTake]
  · intro hflag hsrc hclone
    simp [play, hu, hdata, playGit, hflag, hsrc, hclone, replaceProgress0, emit, progressTake]
  · intro hflag hsrc hpull
    simp [play, hu, hdata, playGit, hflag, hsrc, hpull, replaceProgress0, emit, progressTake]

/-- **C6 counterexample.** A concrete pull failure on `GitLatest`: the run
emits the command-failure error and an informational notice — no message at
all on the warning channel — while the build proceeds (the build message
appears and the binary is launched), refuting "a pull failure is downgraded to
a warning". -/
theorem C6_counterexample :
    (play cfgDefault platLinux { extAllOk with pullOk := false } "g" false wGitSrc).messages
      = [(.info, "Pulling changes from github"), (.error, cmdFailMsg),
         (.info, "Failed to clone the repo. Running the latest local commit instead"),
         (.info, "Building the game"), (.info, "Running the game")]
    ∧ ((play cfgDefault platLinux { extAllOk with pullOk := false } "g" false
        wGitSrc).messages.filter (fun m => m.1 == Severity.warning)) = []
    ∧ (play cfgDefault platLinux { extAllOk with pullOk := false } "g" false wGitSrc).launched
      = [⟨"/abs/versions/g/build/VoxelEngine", "versions/g"⟩] := by
  refine ⟨?_, ?_, ?_⟩ <;> decide

/-- Witness for C6 at concrete inputs (the pull-failure branch). -/
theorem C6_gitlatest_policy_witness :
    play cfgDefault platLinux { extAllOk with pullOk := false } "g" false wGitSrc
      = afterRepo cfgDefault platLinux { extAllOk with pullOk := false } "g" false
          (emit (emit (emit (replaceProgress0
            { wGitSrc with fs := wGitSrc.fs.createDir (versionPath "g") }) .info
            "Pulling changes from github") .error cmdFailMsg) .info
            "Failed to clone the repo. Running the latest local commit instead") :=
  (C6_gitlatest_policy cfgDefault platLinux { extAllOk with pullOk := false } "g" false
    wGitSrc rfl).2.2.2 rfl (by decide) rfl

/-! ## Descriptor-shape lemmas: which transitions touch the descriptor -/

theorem applyCompileLine_data (w : World) (line : String) :
    (applyCompileLine w line).data = w.data := by
  unfold applyCompileLine
  cases cmakeProgress line <;> rfl

theorem foldl_applyCompileLine_data :
    ∀ (lines : List String) (w : World), (lines.foldl applyCompileLine w).data = w.data := by
  intro lines
  induction lines with
  | nil => intro w; rfl
  | cons l ls ih =>
    intro w
    rw [List.foldl_cons, ih, applyCompileLine_data]

theorem cmakeRewriteStep_data (ext : Ext) (name : String) (w : World) :
    (cmakeRewriteStep ext name w).data = w.data := by
  unfold cmakeRewriteStep
  cases w.fs.fileRead (pathJoin (versionPath name) "CMakeLists.txt") <;> rfl

theorem luaStep_data (ext : Ext) (name : String) (w : World) :
    ((luaStep ext name w).1).data = w.data := by
  unfold luaStep
  repeat' split
  all_goals simp [emit, cmakeRewriteStep_data]

theorem buildStep_data (cfg : LauncherConfig) (ext : Ext) (name : String)
    (fr : Bool) (w : World) :
    ((buildStep cfg ext name fr w).1).data = w.data := by
  unfold buildStep
  rcases hl : (if cfg.download_lua then luaStep ext name w else (w, true)) with ⟨w1, b⟩
  have hw1 : w1.data = w.data := by
    have hfst : w1 = (if cfg.download_lua then luaStep ext name w else (w, true)).1 := by
      rw [hl]
    rw [hfst]
    cases hdl : cfg.download_lua <;> simp [luaStep_data]
  cases b
  · simp [hw1]
  · cases fr <;> cases ext.configureOk <;> cases ext.compileOk <;>
      simp [emit, hw1, foldl_applyCompileLine_data]

theorem afterRepo_data (cfg : LauncherConfig) (plat : Platform) (ext : Ext)
    (name : String) (fr : Bool) (w : World) :
    (afterRepo cfg plat ext name fr w).data = w.data := by
  unfold afterRepo
  rcases hb : buildStep cfg ext name fr w with ⟨w1, b⟩
  have hw1 : w1.data = w.data := by
    have := buildStep_data cfg ext name fr w
    rw [hb] at this
    exact this
  cases b <;> simp [progressTake, runBinary_data, hw1]

theorem playGit_data (cfg : LauncherConfig) (plat : Platform) (ext : Ext)
    (name : String) (fr : Bool) (w : World) :
    (playGit cfg plat ext name fr w).data = w.data := by
  unfold playGit
  cases cfg.build_unsupported <;>
    simp [emit, progressTake, replaceProgress0, afterRepo_data]
  cases w.fs.pathExists (pathJoin (versionPath name) "src") <;>
    cases ext.cloneOk <;> cases ext.pullOk <;>
    simp [emit, progressTake, replaceProgress0, afterRepo_data]

theorem playBinary_data_shape (plat : Platform) (ext : Ext) (name : String)
    (uz : Bool) (w : World) :
    (playBinary plat ext name uz w).data = w.data
    ∨ (playBinary plat ext name uz w).data = .Local (downloadedName plat) w.data := by
  unfold playBinary
  cases hdl : ext.downloadResult with
  | error e => left; simp [emit, progressTake, replaceProgress0]
  | ok bytes =>
    cases uz
    · right
      simp [binTail, emit, replaceProgress0]
      cases plat.linux <;> simp [finish_data, emit, replaceProgress0]
    · cases hup : ext.unpackResult with
      | error e => left; simp [emit, progressTake, replaceProgress0]
      | ok u =>
        right
        simp [binTail, emit, replaceProgress0]
        cases plat.linux <;> simp [finish_data, emit, replaceProgress0]

theorem playSource_data_shape (cfg : LauncherConfig) (plat : Platform) (ext : Ext)
    (name : String) (fr : Bool) (w : World) :
    (playSource cfg plat ext name fr w).data = w.data
    ∨ (playSource cfg plat ext name fr w).data
        = .Local (pathJoin "build" (binaryName plat)) w.data := by
  unfold playSource
  cases cfg.build_unsupported
  · left; simp [emit, progressTake]
  · by_cases hname : name = "v11" ∨ name = "v12"
    · left; simp [emit, hname]
    · simp only [if_true, Bool.true_eq_false, hname, if_false]
      cases hdl : ext.downloadResult with
      | error e => left; simp [emit, progressTake, replaceProgress0]
      | ok bytes =>
        cases hup : ext.unpackResult with
        | error e => left; simp [emit, progressTake, replaceProgress0]
        | ok u =>
          rcases hb : buildStep cfg ext name fr
              (emit (emit (replaceProgress0 w) .info "Downloading version source")
                .info "Unpacking version sources") with ⟨w1, b⟩
          have hw1 : w1.data = w.data := by
            have := buildStep_data cfg ext name fr
              (emit (emit (replaceProgress0 w) .info "Downloading version source")
                .info "Unpacking version sources")
            rw [hb] at this
            simpa [emit, replaceProgress0] using this
          cases b
          · left
            simp [emit, replaceProgress0, hb, progressTake, hw1]
          · right
            simp [emit, replaceProgress0, hb, finish_data, hw1]

theorem notNestedB_of_isLocal_false (d : VersionData) (h : d.isLocal = false) :
    notNestedB d = true := by
  cases d <;> simp_all [VersionData.isLocal, notNestedB]

theorem playBinary_data_success (plat : Platform) (ext : Ext) (name : String)
    (uz : Bool) (w : World) (bytes : String)
    (hdl : ext.downloadResult = .ok bytes)
    (hunz : uz = true → ext.unpackResult = .ok ()) :
    (playBinary plat ext name uz w).data = .Local (downloadedName plat) w.data := by
  unfold playBinary
  cases uz
  · simp only [hdl]
    simp [binTail, emit, replaceProgress0]
    cases plat.linux <;> simp [finish_data, emit, replaceProgress0]
  · have hup := hunz rfl
    simp only [hdl, hup]
    simp [binTail, emit, replaceProgress0]
    cases plat.linux <;> simp [finish_data, emit, replaceProgress0]

/-- Every `play` invocation either leaves the (possibly force-unwrapped)
descriptor unchanged or wraps it — then necessarily a non-`Local` one — into a
single new `Local` layer. -/
theorem play_data_shape (cfg : LauncherConfig) (plat : Platform) (ext : Ext)
    (name : String) (fr : Bool) (w : World) :
    (play cfg plat ext name fr w).data = (unwrapForce fr w).data
    ∨ ∃ x, (play cfg plat ext name fr w).data = .Local x ((unwrapForce fr w).data)
        ∧ ((unwrapForce fr w).data).isLocal = false := by
  cases hd : (unwrapForce fr w).data with
  | GitLatest =>
    left
    simp [play, hd, playGit_data]
  | NotFound =>
    left
    simp [play, hd, emit]
  | Local b o =>
    left
    simp [play, hd, runBinary_data]
  | Binary url uz =>
    have hp : play cfg plat ext name fr w
        = playBinary plat ext name uz
          { unwrapForce fr w with
            fs := (unwrapForce fr w).fs.createDir (versionPath name) } := by
      simp [play, hd]
    rcases playBinary_data_shape plat ext name uz
        { unwrapForce fr w with
          fs := (unwrapForce fr w).fs.createDir (versionPath name) } with h | h
    · left
      rw [hp, h, hd]
    · right
      refine ⟨downloadedName plat, ?_, ?_⟩
      · rw [hp, h]
        simp [hd]
      · simp [hd, VersionData.isLocal]
  | Source zu =>
    have hp : play cfg plat ext name fr w
        = playSource cfg plat ext name fr
          { unwrapForce fr w with
            fs := (unwrapForce fr w).fs.createDir (versionPath name) } := by
      simp [play, hd]
    rcases playSource_data_shape cfg plat ext name fr
        { unwrapForce fr w with
          fs := (unwrapForce fr w).fs.createDir (versionPath name) } with h | h
    · left
      rw [hp, h, hd]
    · right
      refine ⟨pathJoin "build" (binaryName plat), ?_, ?_⟩
      · rw [hp, h]
        simp [hd]
      · simp [hd, VersionData.isLocal]

/-! ## C2: force refresh on a `Local` descriptor -/

/-- **C2.** With `force_refresh`, `play` on a `Local` descriptor first
replaces the descriptor by its origin and behaves exactly as a `play` started
on that origin; whenever the run ends in a `Local` descriptor again, its
origin is that same original strategy (never the `Local` wrapper itself); for
a `Binary` origin with successful download (and unpack, when applicable) the
run does end in `Local` with that origin; and the no-nesting invariant — a
`Local` descriptor's origin is never itself `Local` — is preserved by every
`play` transition. -/
theorem C2_force_refresh_local (cfg : LauncherConfig) (plat : Platform) (ext : Ext)
    (name : String) (w : World) (b : String) (o : VersionData)
    (ho : o.isLocal = false) :
    (play cfg plat ext name true { w with data := .Local b o }
      = play cfg plat ext name true { w with data := o })
    ∧ (∀ b2 o2, (play cfg plat ext name true { w with data := .Local b o }).data
        = .Local b2 o2 → o2 = o)
    ∧ (∀ url uz bytes, o = .Binary url uz → ext.downloadResult = .ok bytes →
        (uz = true → ext.unpackResult = .ok ()) →
        (play cfg plat ext name true { w with data := .Local b o }).data
          = .Local (downloadedName plat) o)
    ∧ (∀ (fr : Bool) (w2 : World), notNestedB w2.data = true →
        notNestedB (play cfg plat ext name fr w2).data = true) := by
  have h1 : play cfg plat ext name true { w with data := .Local b o }
      = play cfg plat ext name true { w with data := o } := by
    cases o with
    | Local b2 o2 => simp [VersionData.isLocal] at ho
    | GitLatest => simp [play, unwrapForce]
    | Binary url uz => simp [play, unwrapForce]
    | Source zu => simp [play, unwrapForce]
    | NotFound => simp [play, unwrapForce]
  have huw : (unwrapForce true { w with data := o }).data = o := by
    cases o with
    | Local b2 o2 => simp [VersionData.isLocal] at ho
    | GitLatest => simp [unwrapForce]
    | Binary url uz => simp [unwrapForce]
    | Source zu => simp [unwrapForce]
    | NotFound => simp [unwrapForce]
  refine ⟨h1, ?_, ?_, ?_⟩
  · intro b2 o2 h
    rw [h1] at h
    rcases play_data_shape cfg plat ext name true { w with data := o } with hs | ⟨x, hs, _⟩
    · rw [hs, huw] at h
      rw [h] at ho
      simp [VersionData.isLocal] at ho
    · rw [hs, huw] at h
      injection h with hb hide
      exact hide.symm
  · intro url uz bytes ho' hdl hunz
    subst ho'
    have hp : play cfg plat ext name true { w with data := .Local b (.Binary url uz) }
        = playBinary plat ext name uz
          { w with data := .Binary url uz,
                   fs := w.fs.createDir (versionPath name) } := by
      simp [play, unwrapForce]
    rw [hp, playBinary_data_success plat ext name uz _ bytes hdl hunz]
  · intro fr w2 hinv
    have huwinv : notNestedB (unwrapForce fr w2).data = true := by
      cases fr
      · simpa [unwrapForce] using hinv
      · cases hd2 : w2.data with
        | Local bb oo =>
          have hoo : oo.isLocal = false := by
            rw [hd2] at hinv
            simpa [notNestedB] using hinv
          simpa [unwrapForce, hd2] using notNestedB_of_isLocal_false oo hoo
        | GitLatest => simpa [unwrapForce, hd2] using hinv
        | Binary url uz => simpa [unwrapForce, hd2] using hinv
        | Source zu => simpa [unwrapForce, hd2] using hinv
        | NotFound => simpa [unwrapForce, hd2] using hinv
    rcases play_data_shape cfg plat ext name fr w2 with hs | ⟨x, hs, hloc⟩
    · rw [hs]
      exact huwinv
    · rw [hs]
      simp [notNestedB, hloc]

/-- Witness for C2 at concrete inputs: a force refresh on
`Local { binary: "old", origin: Binary }` with a successful download re-wraps
into a `Local` whose origin is that same `Binary` strategy. -/
theorem C2_force_refresh_local_witness :
    (play cfgDefault platLinux extAllOk "x" true
        { w0 .NotFound with data := .Local "old" (.Binary "u" false) }
      = play cfgDefault platLinux extAllOk "x" true
        { w0 .NotFound with data := .Binary "u" false })
    ∧ (play cfgDefault platLinux extAllOk "x" true
        { w0 .NotFound with data := .Local "old" (.Binary "u" false) }).data
      = .Local (downloadedName platLinux) (.Binary "u" false) :=
  ⟨(C2_force_refresh_local cfgDefault platLinux extAllOk "x" (w0 .NotFound) "old"
      (.Binary "u" false) rfl).1,
   (C2_force_refresh_local cfgDefault platLinux extAllOk "x" (w0 .NotFound) "old"
      (.Binary "u" false) rfl).2.2.1 "u" false "BYTES" rfl rfl
      (fun h => absurd h (by decide))⟩

/-! ## C1: descriptor assignment precedence in `Version::parse` -/

/-- **C1.** For every release with a name, `Version::parse` yields exactly one
Acquisition Descriptor, following the precedence: a parseable sidecar
descriptor is used verbatim; otherwise a platform-matching binary asset, only
when `use_prebuilt_when_possible` is set, yields `Binary` (with `unzip` set on
Windows); otherwise a present source-archive URL yields `Source`; otherwise
`NotFound`.  A release without a name yields no `Version` at all. -/
theorem C1_parse_precedence (plat : Platform) (cfg : LauncherConfig) (fs : FS)
    (release : Release) :
    (release.name = none → versionParse plat cfg fs release = none)
    ∧ (∀ nm, release.name = some nm →
        (∀ d0, readSidecar fs nm = some d0 →
          versionParse plat cfg fs release = some (nm, d0))
        ∧ (∀ url, readSidecar fs nm = none →
            (release.assets.find? (findPlatformVersion plat)).map
                (fun a => a.browser_download_url) = some url →
            cfg.use_prebuilt_when_possible = true →
            versionParse plat cfg fs release = some (nm, .Binary url plat.windows))
        ∧ (∀ zu, readSidecar fs nm = none →
            ((release.assets.find? (findPlatformVersion plat)).map
                (fun a => a.browser_download_url) = none
              ∨ cfg.use_prebuilt_when_possible = false) →
            release.zipball_url = some zu →
            versionParse plat cfg fs release = some (nm, .Source zu))
        ∧ (readSidecar fs nm = none →
            ((release.assets.find? (findPlatformVersion plat)).map
                (fun a => a.browser_download_url) = none
              ∨ cfg.use_prebuilt_when_possible = false) →
            release.zipball_url = none →
            versionParse plat cfg fs release = some (nm, .NotFound))
        ∧ (∃ d, versionParse plat cfg fs release = some (nm, d))) := by
  constructor
  · intro hnm
    simp [versionParse, hnm]
  · intro nm hnm
    refine ⟨?_, ?_, ?_, ?_, ?_⟩
    · intro d0 hsc
      simp [versionParse, hnm, hsc]
    · intro url hsc hfind hflag
      simp [versionParse, hnm, hsc, hfind, hflag]
    · intro zu hsc hor hz
      rcases hor with hfind | hflag
      · simp [versionParse, hnm, hsc, hfind, hz]
      · cases hfind : (release.assets.find? (findPlatformVersion plat)).map
            (fun a => a.browser_download_url) with
        | none => simp [versionParse, hnm, hsc, hfind, hz]
        | some url => simp [versionParse, hnm, hsc, hfind, hflag, hz]
    · intro hsc hor hz
      rcases hor with hfind | hflag
      · simp [versionParse, hnm, hsc, hfind, hz]
      · cases hfind : (release.assets.find? (findPlatformVersion plat)).map
            (fun a => a.browser_download_url) with
        | none => simp [versionParse, hnm, hsc, hfind, hz]
        | some url => simp [versionParse, hnm, hsc, hfind, hflag, hz]
    · cases hsc : readSidecar fs nm with
      | some d0 => exact ⟨d0, by simp [versionParse, hnm, hsc]⟩
      | none =>
        cases hfind : (release.assets.find? (findPlatformVersion plat)).map
            (fun a => a.browser_download_url) with
        | some url =>
          cases hflag : cfg.use_prebuilt_when_possible with
          | true =>
            exact ⟨.Binary url plat.windows, by simp [versionParse, hnm, hsc, hfind, hflag]⟩
          | false =>
            cases hz : release.zipball_url with
            | some zu =>
              exact ⟨.Source zu, by simp [versionParse, hnm, hsc, hfind, hflag, hz]⟩
            | none =>
              exact ⟨.NotFound, by simp [versionParse, hnm, hsc, hfind, hflag, hz]⟩
        | none =>
          cases hz : release.zipball_url with
          | some zu => exact ⟨.Source zu, by simp [versionParse, hnm, hsc, hfind, hz]⟩
          | none => exact ⟨.NotFound, by simp [versionParse, hnm, hsc, hfind, hz]⟩

/-- Witness for C1 at concrete inputs: on a Unix platform with no sidecar, an
asset list without a platform match falls through to the source archive. -/
theorem C1_parse_precedence_witness :
    versionParse platLinux cfgDefault ⟨[], [], []⟩
        ⟨some "r", [⟨"pkg-win64.zip", "URL"⟩], some "Z"⟩ = some ("r", .Source "Z") :=
  ((C1_parse_precedence platLinux cfgDefault ⟨[], [], []⟩
      ⟨some "r", [⟨"pkg-win64.zip", "URL"⟩], some "Z"⟩).2 "r" rfl).2.2.1 "Z"
    (by decide) (Or.inl (by decide)) rfl

/-! ## C4: the local-scan fallback of `update` -/

theorem scanLocal_mem (fs : FS) :
    ∀ (l : List String) (name : String) (d : VersionData),
      (name, d) ∈ (scanLocal fs l).2
      ↔ name ∈ l
        ∧ ∃ c, fs.fileRead (pathJoin (versionPath name) "version.ron") = some c
            ∧ fromRon c = some d := by
  intro l
  induction l with
  | nil =>
    intro name d
    simp [scanLocal]
  | cons x rest ih =>
    intro name d
    unfold scanLocal
    rcases hsc : scanLocal fs rest with ⟨ws, vs⟩
    have ihv : (name, d) ∈ vs
        ↔ name ∈ rest
          ∧ ∃ c, fs.fileRead (pathJoin (versionPath name) "version.ron") = some c
              ∧ fromRon c = some d := by
      have := ih name d
      rw [hsc] at this
      exact this
    cases hr : fs.fileRead (pathJoin (versionPath x) "version.ron") with
    | none =>
      simp only [hsc, ihv]
      by_cases hx : name = x
      · subst hx
        have hP : ¬∃ c, fs.fileRead (pathJoin (versionPath name) "version.ron") = some c
            ∧ fromRon c = some d := by
          rw [hr]
          rintro ⟨c, hc, _⟩
          cases hc
        simp [hP]
      · simp [List.mem_cons, hx]
    | some content =>
      cases hp : fromRon content with
      | some d0 =>
        simp only [hp, hsc, List.mem_cons, Prod.mk.injEq]
        constructor
        · rintro (⟨hn, hd⟩ | hm)
          · subst hn
            subst hd
            exact ⟨Or.inl rfl, content, hr, hp⟩
          · have := ihv.1 hm
            exact ⟨Or.inr this.1, this.2⟩
        · rintro ⟨hn | hm, c, hc, hcp⟩
          · subst hn
            rw [hr] at hc
            cases hc
            rw [hp] at hcp
            cases hcp
            exact Or.inl ⟨rfl, rfl⟩
          · exact Or.inr (ihv.2 ⟨hm, c, hc, hcp⟩)
      | none =>
        simp only [hp, hsc, ihv]
        by_cases hx : name = x
        · subst hx
          have hP : ¬∃ c, fs.fileRead (pathJoin (versionPath name) "version.ron") = some c
              ∧ fromRon c = some d := by
            rw [hr]
            rintro ⟨c, hc, hcp⟩
            cases hc
            rw [hp] at hcp
            cases hcp
          simp [hP]
        · simp [List.mem_cons, hx]

theorem scanLocal_warn (fs : FS) :
    ∀ (l : List String) (name : String) (c : String),
      name ∈ l →
      fs.fileRead (pathJoin (versionPath name) "version.ron") = some c →
      fromRon c = none →
      (Severity.warning, corruptMsg name) ∈ (scanLocal fs l).1 := by
  intro l
  induction l with
  | nil =>
    intro name c hm
    cases hm
  | cons x rest ih =>
    intro name c hm hc hp
    unfold scanLocal
    rcases hsc : scanLocal fs rest with ⟨ws, vs⟩
    have ihw : name ∈ rest → (Severity.warning, corruptMsg name) ∈ ws := by
      intro hm2
      have := ih name c hm2 hc hp
      rw [hsc] at this
      exact this
    rcases List.mem_cons.1 hm with hx | hm2
    · subst hx
      simp [hc, hp, hsc]
    · cases hr : fs.fileRead (pathJoin (versionPath x) "version.ron") with
      | none => simpa [hsc] using ihw hm2
      | some content =>
        cases hp2 : fromRon content with
        | some d0 => simp [hsc, hp2, ihw hm2]
        | none => simp [hsc, hp2, ihw hm2]

/-- **C4.** When the host release query fails, `update` emits first a warning
containing the first line of the error message and builds the catalog from the
local scan: the catalog equals the synthetic `Latest (Git)` entry at index 0
followed by exactly those subdirectories whose sidecar parses (with that
descriptor), and every subdirectory whose sidecar exists but is corrupt is
skipped with a warning naming it; the function is total, so the network error
never propagates. -/
theorem C4_update_fallback (plat : Platform) (cfg : LauncherConfig) (fs : FS)
    (err : String) (dirListing : List String) :
    ((updateModel plat cfg fs (.error err) dirListing).2
      = ("Latest (Git)", VersionData.GitLatest) :: (scanLocal fs dirListing).2)
    ∧ ((updateModel plat cfg fs (.error err) dirListing).1.head?
      = some (.warning, "Failed to fetch versions from github: " ++ firstLine err))
    ∧ (∀ name d, (name, d) ∈ ((updateModel plat cfg fs (.error err) dirListing).2).tail
        ↔ name ∈ dirListing
          ∧ ∃ c, fs.fileRead (pathJoin (versionPath name) "version.ron") = some c
              ∧ fromRon c = some d)
    ∧ (∀ name c, name ∈ dirListing →
        fs.fileRead (pathJoin (versionPath name) "version.ron") = some c →
        fromRon c = none →
        (Severity.warning, corruptMsg name)
          ∈ (updateModel plat cfg fs (.error err) dirListing).1) := by
  rcases hsc : scanLocal fs dirListing with ⟨ws, vs⟩
  refine ⟨?_, ?_, ?_, ?_⟩
  · simp [updateModel, hsc]
  · simp [updateModel, hsc]
  · intro name d
    have := scanLocal_mem fs dirListing name d
    rw [hsc] at this
    simpa [updateModel, hsc] using this
  · intro name c hm hc hp
    have := scanLocal_warn fs dirListing name c hm hc hp
    rw [hsc] at this
    simp [updateModel, hsc, this]

/-- Witness for C4 at concrete inputs: with one parseable and one corrupt
sidecar, the catalog tail holds the parseable entry and the warnings name the
corrupt one. -/
theorem C4_update_fallback_witness :
    (Severity.warning, corruptMsg "b")
      ∈ (updateModel platLinux cfgDefault fsTwoSidecars (.error "boom\nmore") ["a", "b"]).1
    ∧ ("a", VersionData.GitLatest)
      ∈ ((updateModel platLinux cfgDefault fsTwoSidecars (.error "boom\nmore") ["a", "b"]).2).tail :=
  ⟨(C4_update_fallback platLinux cfgDefault fsTwoSidecars "boom\nmore" ["a", "b"]).2.2.2
      "b" "junk" (by decide) (by decide) (by decide),
   ((C4_update_fallback platLinux cfgDefault fsTwoSidecars "boom\nmore" ["a", "b"]).2.2.1
      "a" VersionData.GitLatest).2 ⟨by decide, "GitLatest", by decide, by decide⟩⟩

end VoxelLauncher
